import Mathlib

/-
Verification development for the Simple Archiver plugin (src/main.ts).

Vault paths are shallowly embedded as lists of characters ('/'-separated
segments).  Host capabilities (vault lookup, folder lookup, rename/trash,
file stat, the regex engine, modal decisions) are modeled as explicit
parameters; mutations are recorded as an explicit effect list.
-/

set_option autoImplicit false

namespace SimpleArchiver

/-- A vault path: the character list of its string form. -/
abbrev Path := List Char

/-- The path separator. -/
def slash : Char := '/'

/-- Splits a path at each slash.  The empty path yields one empty segment,
`"a//b"` yields an empty middle segment, mirroring JavaScript split. -/
def splitSeg : Path → List Path
  | [] => [[]]
  | c :: rest =>
    let r := splitSeg rest
    if c = slash then [] :: r
    else (c :: r.headI) :: r.tail

/-- Joins segments back with single slashes. -/
def joinSegs : List Path → Path
  | [] => []
  | [s] => s
  | s :: t :: rest => s ++ slash :: joinSegs (t :: rest)

/-- Models Obsidian's `normalizePath` on the slash structure: collapse runs
of separators and strip leading/trailing separators (drop all empty
segments, rejoin with single slashes). -/
def normalizePath (p : Path) : Path :=
  joinSegs ((splitSeg p).filter (fun s => !s.isEmpty))

/-- A path is normalized when it has no empty segment (so no leading,
trailing, or doubled slash, and the path itself is nonempty). -/
def NormalizedPath (p : Path) : Prop := [] ∉ splitSeg p

instance (p : Path) : Decidable (NormalizedPath p) := by
  unfold NormalizedPath; infer_instance

/-- `isFileArchived` from src/main.ts line 186:
`file.path.startsWith(this.settings.archiveFolder)` — a plain string-prefix
test of the archive folder against the file path. -/
def isFileArchived (archiveFolder : Path) (filePath : Path) : Bool :=
  archiveFolder.isPrefixOf filePath

/-- Modelled from the spec: `isArchived(path, archiveRoot)` is true iff
`path` starts with `archiveRoot` as a path-segment prefix, i.e. `path`
equals the root or begins with the root followed by a slash. -/
def isArchivedSegmentSpec (archiveFolder : Path) (filePath : Path) : Bool :=
  filePath == archiveFolder || (archiveFolder ++ [slash]).isPrefixOf filePath

/-! ### Basic lemmas about the path infrastructure -/

theorem splitSeg_ne_nil (p : Path) : splitSeg p ≠ [] := by
  cases p with
  | nil => simp [splitSeg]
  | cons c rest =>
    simp only [splitSeg]
    split <;> simp

theorem splitSeg_cons_slash (rest : Path) :
    splitSeg (slash :: rest) = [] :: splitSeg rest := by
  simp [splitSeg]

theorem splitSeg_cons_ne (c : Char) (rest : Path) (h : c ≠ slash) :
    splitSeg (c :: rest) =
      (c :: (splitSeg rest).headI) :: (splitSeg rest).tail := by
  simp [splitSeg, h]

/-- Splitting distributes over a slash-separated concatenation. -/
theorem splitSeg_append (a b : Path) :
    splitSeg (a ++ slash :: b) = splitSeg a ++ splitSeg b := by
  induction a with
  | nil => simp [splitSeg_cons_slash, splitSeg]
  | cons c a ih =>
    by_cases hc : c = slash
    · subst hc
      simp [splitSeg_cons_slash, ih]
    · obtain ⟨s, ss, hss⟩ := List.exists_cons_of_ne_nil (splitSeg_ne_nil a)
      simp [splitSeg_cons_ne c _ hc, ih, hss]

theorem joinSegs_cons_cons (s t : Path) (rest : List Path) :
    joinSegs (s :: t :: rest) = s ++ slash :: joinSegs (t :: rest) := rfl

/-- Joining distributes over concatenation of nonempty segment lists. -/
theorem joinSegs_append (A B : List Path) (hA : A ≠ []) (hB : B ≠ []) :
    joinSegs (A ++ B) = joinSegs A ++ slash :: joinSegs B := by
  induction A with
  | nil => exact absurd rfl hA
  | cons s A ih =>
    cases A with
    | nil =>
      obtain ⟨b, bs, hbs⟩ := List.exists_cons_of_ne_nil hB
      subst hbs
      simp [joinSegs, joinSegs_cons_cons]
    | cons t A' =>
      have h1 : (t :: A') ++ B = t :: (A' ++ B) := rfl
      have h2 : joinSegs ((t :: A') ++ B) = joinSegs (t :: (A' ++ B)) := by rw [h1]
      calc joinSegs ((s :: t :: A') ++ B)
          = s ++ slash :: joinSegs ((t :: A') ++ B) := by
            simp [List.cons_append, joinSegs_cons_cons]
        _ = s ++ slash :: (joinSegs (t :: A') ++ slash :: joinSegs B) := by
            rw [ih (by simp)]
        _ = (s ++ slash :: joinSegs (t :: A')) ++ slash :: joinSegs B := by
            simp
        _ = joinSegs (s :: t :: A') ++ slash :: joinSegs B := by
            rw [joinSegs_cons_cons]

/-- `joinSegs` is a left inverse of `splitSeg`. -/
theorem joinSegs_splitSeg (p : Path) : joinSegs (splitSeg p) = p := by
  induction p with
  | nil => simp [splitSeg, joinSegs]
  | cons c rest ih =>
    by_cases hc : c = slash
    · subst hc
      rw [splitSeg_cons_slash]
      obtain ⟨s, ss, hss⟩ := List.exists_cons_of_ne_nil (splitSeg_ne_nil rest)
      rw [hss] at ih ⊢
      rw [joinSegs_cons_cons]
      simp [ih]
    · rw [splitSeg_cons_ne c rest hc]
      obtain ⟨s, ss, hss⟩ := List.exists_cons_of_ne_nil (splitSeg_ne_nil rest)
      rw [hss] at ih ⊢
      cases ss with
      | nil => simpa [joinSegs] using congrArg (c :: ·) ih
      | cons t ss' =>
        simp only [List.headI, List.tail]
        rw [joinSegs_cons_cons] at ih ⊢
        simpa using congrArg (c :: ·) ih

/-! ### Normalized paths -/

theorem normalizedPath_ne_nil {p : Path} (h : NormalizedPath p) : p ≠ [] := by
  intro hp
  subst hp
  exact h (by simp [splitSeg])

theorem normalizePath_of_normalized {p : Path} (h : NormalizedPath p) :
    normalizePath p = p := by
  unfold normalizePath
  rw [List.filter_eq_self.mpr, joinSegs_splitSeg]
  intro s hs
  simp only [Bool.not_eq_true']
  cases s with
  | nil => exact absurd hs h
  | cons c cs => simp

theorem normalizedPath_append {a b : Path}
    (ha : NormalizedPath a) (hb : NormalizedPath b) :
    NormalizedPath (a ++ slash :: b) := by
  unfold NormalizedPath at *
  rw [splitSeg_append]
  simp only [List.mem_append]
  rintro (h | h)
  · exact ha h
  · exact hb h

/-- Joining two normalized paths with a slash is already normalized. -/
theorem normalizePath_append {a b : Path}
    (ha : NormalizedPath a) (hb : NormalizedPath b) :
    normalizePath (a ++ slash :: b) = a ++ slash :: b :=
  normalizePath_of_normalized (normalizedPath_append ha hb)

/-- Appending `"//"` to a normalized path normalizes back to the path itself
(the case of a file at the vault root, whose parent path is `"/"`). -/
theorem normalizePath_append_slash {a : Path} (ha : NormalizedPath a) :
    normalizePath (a ++ slash :: [slash]) = a := by
  unfold normalizePath
  have h1 : a ++ slash :: [slash] = a ++ slash :: ([] ++ slash :: []) := rfl
  rw [h1, splitSeg_append, splitSeg_append]
  have h2 : splitSeg ([] : Path) = [[]] := rfl
  rw [h2, List.filter_append]
  have h3 : List.filter (fun s => !List.isEmpty s) ([[]] ++ [[]] : List Path) = [] := rfl
  rw [h3, List.append_nil, List.filter_eq_self.mpr, joinSegs_splitSeg]
  intro s hs
  simp only [Bool.not_eq_true']
  cases s with
  | nil => exact absurd hs ha
  | cons c cs => simp

/-! ### Claim C1 -/

theorem isPrefixOf_iff_exists :
    ∀ (a b : Path), a.isPrefixOf b = true ↔ ∃ t, b = a ++ t := by
  intro a
  induction a with
  | nil =>
    intro b
    simp [List.isPrefixOf]
  | cons x xs ih =>
    intro b
    cases b with
    | nil => simp [List.isPrefixOf]
    | cons y ys =>
      simp only [List.isPrefixOf, Bool.and_eq_true, beq_iff_eq, ih,
        List.cons_append, List.cons.injEq]
      constructor
      · rintro ⟨rfl, t, rfl⟩
        exact ⟨t, rfl, rfl⟩
      · rintro ⟨t, rfl, rfl⟩
        exact ⟨rfl, t, rfl⟩

/-- C1 (counterexample): the claim states `isFileArchived` is a
path-segment prefix test and in particular that `"ArchiveX/a.md"` is not
archived under root `"Archive"`.  The code's plain string-prefix check
returns true there, while the segment-prefix predicate the claim (and spec)
describes returns false. -/
theorem c1_counterexample :
    isFileArchived "Archive".toList "ArchiveX/a.md".toList = true ∧
    isArchivedSegmentSpec "Archive".toList "ArchiveX/a.md".toList = false := by
  decide

/-- C1 (amended): `isFileArchived` checks that the archive root is a plain
string prefix of the file path: it returns true iff the path literally
extends the root character-for-character — so `"ArchiveX/a.md"` IS
considered archived under root `"Archive"`. -/
theorem c1_isFileArchived_string_prefix (archiveFolder filePath : Path) :
    isFileArchived archiveFolder filePath = true ↔
      ∃ t, filePath = archiveFolder ++ t := by
  unfold isFileArchived
  exact isPrefixOf_iff_exists archiveFolder filePath

/-! ### Files and the archive destination computation (claim C2) -/

/-- A vault item as seen by the core: its full path, its parent folder's
path, and its basename, as provided by the host's `TAbstractFile`. -/
structure VFile where
  path : Path
  parentPath : Path
  name : Path
deriving DecidableEq

/-- The host invariant tying a file's `path`, `parent.path` and `name`
together: for an item in the vault root the parent path is `"/"` and the
path is the bare name; otherwise the path is `parent.path ++ "/" ++ name`. -/
def FileWF (f : VFile) : Prop :=
  f.name ≠ [] ∧ slash ∉ f.name ∧
    ((f.parentPath = [slash] ∧ f.path = f.name) ∨
     (NormalizedPath f.parentPath ∧ f.path = f.parentPath ++ slash :: f.name))

instance (f : VFile) : Decidable (FileWF f) := by
  unfold FileWF; infer_instance

theorem splitSeg_no_slash {p : Path} (h : slash ∉ p) : splitSeg p = [p] := by
  induction p with
  | nil => rfl
  | cons c rest ih =>
    have hc : c ≠ slash := fun hec => h (hec ▸ List.mem_cons_self c rest)
    rw [splitSeg_cons_ne c rest hc, ih (fun hm => h (List.mem_cons_of_mem c hm))]
    rfl

theorem normalizedPath_of_no_slash {p : Path} (h1 : p ≠ []) (h2 : slash ∉ p) :
    NormalizedPath p := by
  unfold NormalizedPath
  rw [splitSeg_no_slash h2]
  simpa using h1

theorem fileWF_normalized_path {f : VFile} (hf : FileWF f) :
    NormalizedPath f.path := by
  obtain ⟨hn1, hn2, hcase⟩ := hf
  have hname : NormalizedPath f.name := normalizedPath_of_no_slash hn1 hn2
  rcases hcase with ⟨_, hp⟩ | ⟨hpp, hp⟩
  · exact hp ▸ hname
  · exact hp ▸ normalizedPath_append hpp hname

/-- The destination path computed by `moveFileToArchive` (src/main.ts lines
248-261): first `normalizePath(archiveFolder + "/" + file.parent.path)`,
then `normalizePath(destinationPath + "/" + file.name)`. -/
def archiveDest (archiveFolder : Path) (f : VFile) : Path :=
  normalizePath (normalizePath (archiveFolder ++ slash :: f.parentPath) ++ slash :: f.name)

/-- The original path computed by `moveFileOutOfArchive` /`unarchiveFile`
(src/main.ts lines 280-282, 298): drop the first `archiveFolder.length + 1`
characters of the archived path; the rename target is its normalization. -/
def unarchiveOriginal (archiveFolder : Path) (p : Path) : Path :=
  normalizePath (p.drop (archiveFolder.length + 1))

/-- C2: for a well-formed non-archived file and a normalized archive root,
archiving computes destination `root ++ "/" ++ f.path`, and unarchiving
that destination (which strips the first `root.length + 1` characters)
recovers exactly `f.path`. -/
theorem c2_archive_roundtrip (root : Path) (f : VFile)
    (hroot : NormalizedPath root) (hf : FileWF f)
    (_hna : isFileArchived root f.path = false) :
    archiveDest root f = root ++ slash :: f.path ∧
    unarchiveOriginal root (root ++ slash :: f.path) = f.path := by
  have hpath : NormalizedPath f.path := fileWF_normalized_path hf
  obtain ⟨hn1, hn2, hcase⟩ := hf
  have hname : NormalizedPath f.name := normalizedPath_of_no_slash hn1 hn2
  constructor
  · rcases hcase with ⟨hpp, hp⟩ | ⟨hpp, hp⟩
    · unfold archiveDest
      rw [hpp]
      have h1 : root ++ slash :: [slash] = root ++ slash :: [slash] := rfl
      rw [normalizePath_append_slash hroot, normalizePath_append hroot hname, hp]
    · unfold archiveDest
      rw [normalizePath_append hroot hpp]
      have h1 : (root ++ slash :: f.parentPath) ++ slash :: f.name
          = root ++ slash :: (f.parentPath ++ slash :: f.name) := by simp
      rw [normalizePath_append (normalizedPath_append hroot hpp) hname, h1, ← hp]
  · unfold unarchiveOriginal
    have h2 : root ++ slash :: f.path = (root ++ [slash]) ++ f.path := by simp
    have h3 : root.length + 1 = (root ++ [slash]).length := by simp
    rw [h2, h3, List.drop_left, normalizePath_of_normalized hpath]

/-- C2 (witness): root `"Archive"`, item `"Notes/todo.md"` — archiving
yields `"Archive/Notes/todo.md"` and unarchiving that recovers
`"Notes/todo.md"`. -/
theorem c2_archive_roundtrip_witness :
    NormalizedPath "Archive".toList ∧
    FileWF ⟨"Notes/todo.md".toList, "Notes".toList, "todo.md".toList⟩ ∧
    isFileArchived "Archive".toList "Notes/todo.md".toList = false ∧
    (archiveDest "Archive".toList
        ⟨"Notes/todo.md".toList, "Notes".toList, "todo.md".toList⟩ =
      "Archive".toList ++ slash :: "Notes/todo.md".toList ∧
     unarchiveOriginal "Archive".toList
        ("Archive".toList ++ slash :: "Notes/todo.md".toList) =
      "Notes/todo.md".toList) :=
  ⟨by decide, by decide, by decide,
    c2_archive_roundtrip "Archive".toList
      ⟨"Notes/todo.md".toList, "Notes".toList, "todo.md".toList⟩
      (by decide) (by decide) (by decide)⟩

/-! ### The orchestrator: archive / unarchive with conflict resolution
(claims C7 and C8) -/

/-- Outcome of one archive/unarchive attempt. -/
structure ArchiveResult where
  success : Bool
  message : List Char
deriving DecidableEq

/-- The user's decision in the replace/cancel confirmation modal
(`SimpleArchiverPromptModal`): which of the two callbacks fires. -/
inductive Decision
  | replace
  | cancel
deriving DecidableEq

/-- A mutating storage operation issued to the host. -/
inductive Effect
  | trashItem (p : Path)
  | createFolder (p : Path)
  | renameItem (src dst : Path)
deriving DecidableEq

/-- The host vault capabilities the orchestrator consumes:
`getAbstractFileByPath` (as an existence test), `getFolderByPath` (as an
existence test), and whether/why `fileManager.renameFile` fails. -/
structure Host where
  itemExists : Path → Bool
  folderExists : Path → Bool
  renameOk : Path → Path → Bool
  renameErr : Path → Path → List Char

/-- `moveFileToArchive` (src/main.ts lines 245-275): computes the
destination folder, creates it when missing, then renames the file into it;
the result wraps the rename error text on failure.  Mutations are returned
as the effect list, in order. -/
def moveFileToArchive (host : Host) (root : Path) (f : VFile) :
    ArchiveResult × List Effect :=
  let destinationPath := normalizePath (root ++ slash :: f.parentPath)
  let folderEffs :=
    if host.folderExists destinationPath then []
    else [Effect.createFolder destinationPath]
  let destinationFilePath := normalizePath (destinationPath ++ slash :: f.name)
  if host.renameOk f.path destinationFilePath then
    (⟨true, f.name ++ " archived successfully".toList⟩,
      folderEffs ++ [Effect.renameItem f.path destinationFilePath])
  else
    (⟨false, "Unable to archive ".toList ++ f.name ++ ": ".toList ++
        host.renameErr f.path destinationFilePath⟩,
      folderEffs)

/-- Models JavaScript `s.substring(0, s.lastIndexOf("/"))`: the characters
before the last slash, or `[]` when there is no slash (`lastIndexOf`
returns -1 and `substring` clamps the negative end to 0). -/
def beforeLastSlash (p : Path) : Path :=
  match p.reverse.findIdx? (fun c => c == slash) with
  | none => []
  | some j => p.take (p.length - 1 - j)

/-- `moveFileOutOfArchive` (src/main.ts lines 277-309): strips the first
`root.length + 1` characters to recover the original path, re-creates the
original parent folder when it is nonempty and missing, then renames the
file to the normalized original path. -/
def moveFileOutOfArchive (host : Host) (root : Path) (f : VFile) :
    ArchiveResult × List Effect :=
  let originalPath := f.path.drop (root.length + 1)
  let originalParentPath := beforeLastSlash originalPath
  let folderEffs :=
    if originalParentPath.isEmpty then []
    else if host.folderExists originalParentPath then []
    else [Effect.createFolder (normalizePath originalParentPath)]
  if host.renameOk f.path (normalizePath originalPath) then
    (⟨true, f.name ++ " unarchived successfully".toList⟩,
      folderEffs ++ [Effect.renameItem f.path (normalizePath originalPath)])
  else
    (⟨false, "Unable to unarchive ".toList ++ f.name ++ ": ".toList ++
        host.renameErr f.path (normalizePath originalPath)⟩,
      folderEffs)

/-- `archiveFile` (src/main.ts lines 190-231): fails fast when already
archived; when the destination is occupied, acts on the modal decision
(replace trashes the occupant then moves, cancel is a failed no-op);
otherwise moves directly. -/
def archiveFile (host : Host) (decision : Decision) (root : Path) (f : VFile) :
    ArchiveResult × List Effect :=
  if isFileArchived root f.path then
    (⟨false, "Item is already archived".toList⟩, [])
  else
    let destinationFilePath := normalizePath (root ++ slash :: f.path)
    if host.itemExists destinationFilePath then
      match decision with
      | .replace =>
        let r := moveFileToArchive host root f
        (r.1, Effect.trashItem destinationFilePath :: r.2)
      | .cancel => (⟨false, "Archive operation cancelled".toList⟩, [])
    else
      moveFileToArchive host root f

/-- `unarchiveFile` (src/main.ts lines 311-349): fails fast when not
archived; when the original location is occupied, acts on the modal
decision; otherwise moves directly. -/
def unarchiveFile (host : Host) (decision : Decision) (root : Path) (f : VFile) :
    ArchiveResult × List Effect :=
  if !(isFileArchived root f.path) then
    (⟨false, "Item is not archived".toList⟩, [])
  else
    let originalPath := f.path.drop (root.length + 1)
    if host.itemExists originalPath then
      match decision with
      | .replace =>
        let r := moveFileOutOfArchive host root f
        (r.1, Effect.trashItem originalPath :: r.2)
      | .cancel => (⟨false, "Unarchive operation cancelled".toList⟩, [])
    else
      moveFileOutOfArchive host root f

/-- C7: when the destination is occupied and the user cancels,
`archiveFile` fails with the cancellation message and performs no
mutation (empty effect list). -/
theorem c7_cancel_is_noop (host : Host) (root : Path) (f : VFile)
    (hna : isFileArchived root f.path = false)
    (hocc : host.itemExists (normalizePath (root ++ slash :: f.path)) = true) :
    archiveFile host Decision.cancel root f =
      (⟨false, "Archive operation cancelled".toList⟩, []) := by
  simp [archiveFile, hna, hocc]

/-- A concrete host in which every path is occupied and every rename
succeeds. -/
def hostFull : Host :=
  ⟨fun _ => true, fun _ => true, fun _ _ => true, fun _ _ => []⟩

/-- C7 (witness): archiving `"a.md"` under root `"Archive"` with the
destination occupied and decision cancel. -/
theorem c7_cancel_is_noop_witness :
    isFileArchived "Archive".toList "a.md".toList = false ∧
    hostFull.itemExists
      (normalizePath ("Archive".toList ++ slash :: "a.md".toList)) = true ∧
    archiveFile hostFull Decision.cancel "Archive".toList
        ⟨"a.md".toList, [slash], "a.md".toList⟩ =
      (⟨false, "Archive operation cancelled".toList⟩, []) :=
  ⟨by decide, by decide,
    c7_cancel_is_noop hostFull "Archive".toList
      ⟨"a.md".toList, [slash], "a.md".toList⟩ (by decide) (by decide)⟩

/-- C8: `archiveFile` on an already-archived item fails fast with the
"Item is already archived" message and no storage operation; symmetrically,
`unarchiveFile` on a non-archived item fails fast with the
"Item is not archived" message and no storage operation — for every host
and every modal decision. -/
theorem c8_fail_fast (host : Host) (d : Decision) (root : Path) (f g : VFile)
    (ha : isFileArchived root f.path = true)
    (hb : isFileArchived root g.path = false) :
    archiveFile host d root f = (⟨false, "Item is already archived".toList⟩, []) ∧
    unarchiveFile host d root g = (⟨false, "Item is not archived".toList⟩, []) := by
  constructor
  · simp [archiveFile, ha]
  · simp [unarchiveFile, hb]

/-- C8 (witness): root `"Archive"`, archived item `"Archive/a.md"`,
non-archived item `"b.md"`. -/
theorem c8_fail_fast_witness :
    isFileArchived "Archive".toList "Archive/a.md".toList = true ∧
    isFileArchived "Archive".toList "b.md".toList = false ∧
    (archiveFile hostFull Decision.replace "Archive".toList
        ⟨"Archive/a.md".toList, "Archive".toList, "a.md".toList⟩ =
      (⟨false, "Item is already archived".toList⟩, []) ∧
     unarchiveFile hostFull Decision.replace "Archive".toList
        ⟨"b.md".toList, [slash], "b.md".toList⟩ =
      (⟨false, "Item is not archived".toList⟩, [])) :=
  ⟨by decide, by decide,
    c8_fail_fast hostFull Decision.replace "Archive".toList
      ⟨"Archive/a.md".toList, "Archive".toList, "a.md".toList⟩
      ⟨"b.md".toList, [slash], "b.md".toList⟩ (by decide) (by decide)⟩

/-! ### Conditions and the rule engine (claims C3, C4, C5, C6, C10) -/

inductive CondType
  | fileAge
  | regexPattern
deriving DecidableEq

structure AutoArchiveCondition where
  type : CondType
  value : List Char
deriving DecidableEq

inductive LogicOp
  | AND
  | OR
deriving DecidableEq

structure AutoArchiveRule where
  id : List Char
  enabled : Bool
  folderPath : Path
  conditions : List AutoArchiveCondition
  logicOperator : LogicOp
deriving DecidableEq

/-- Models JavaScript `parseInt` on the inputs the plugin feeds it: skip
leading whitespace, read an optional sign, then a longest run of decimal
digits; no digits means NaN, modeled as `none`.  (The builtin's
hexadecimal `0x` form is not modeled; age values are day counts.) -/
def parseIntJS (s : List Char) : Option Int :=
  let t := s.dropWhile (fun c => c == ' ' || c == '\t' || c == '\n' || c == '\r')
  let signed : Bool × List Char :=
    match t with
    | '-' :: r => (true, r)
    | '+' :: r => (false, r)
    | r => (false, r)
  let ds := signed.2.takeWhile (fun c => c.isDigit)
  if ds.isEmpty then none
  else
    let n : Nat := ds.foldl (fun acc c => acc * 10 + (c.toNat - '0'.toNat)) 0
    some (if signed.1 then -(n : Int) else (n : Int))

/-- The host capabilities condition evaluation consumes: `Date.now()`,
`vault.adapter.stat` (its `mtime`, or `none` when stat returns null), and
the JS regex engine — `new RegExp` throwing on an invalid source is
modeled as `none`, a compiled regex as its test function. -/
structure CondEnv where
  now : Int
  statMtime : Path → Option Int
  regexCompile : List Char → Option (Path → Bool)

/-- `evaluateCondition` (src/main.ts lines 463-495): a `fileAge` condition
parses its value, stats the file and compares the age in days — an exact
rational, fractional days allowed — against the parsed value; a
`regexPattern` condition tests the compiled regex against the file name,
and an invalid pattern (caught `new RegExp` error, logged) yields false. -/
def evaluateCondition (env : CondEnv) (f : VFile) (c : AutoArchiveCondition) : Bool :=
  match c.type with
  | CondType.fileAge =>
    match parseIntJS c.value with
    | none => false
    | some ageInDays =>
      match env.statMtime f.path with
      | none => false
      | some mtime =>
        let fileAgeMs : Int := env.now - mtime
        decide ((fileAgeMs : ℚ) / (1000 * 60 * 60 * 24) ≥ (ageInDays : ℚ))
  | CondType.regexPattern =>
    match env.regexCompile c.value with
    | none => false
    | some test => test f.name

/-- The `OR` loop of `evaluateAutoArchiveRule` (src/main.ts lines 444-451):
return true on the first matching condition, false after the loop. -/
def evalCondsOR (env : CondEnv) (f : VFile) : List AutoArchiveCondition → Bool
  | [] => false
  | c :: rest =>
    if evaluateCondition env f c then true else evalCondsOR env f rest

/-- The `AND` loop of `evaluateAutoArchiveRule` (src/main.ts lines
452-459): return false on the first non-matching condition, true after the
loop. -/
def evalCondsAND (env : CondEnv) (f : VFile) : List AutoArchiveCondition → Bool
  | [] => true
  | c :: rest =>
    if evaluateCondition env f c then evalCondsAND env f rest else false

/-- `evaluateAutoArchiveRule` (src/main.ts lines 429-461). -/
def evaluateAutoArchiveRule (env : CondEnv) (root : Path) (f : VFile)
    (rule : AutoArchiveRule) : Bool :=
  if isFileArchived root f.path then false
  else if rule.conditions.isEmpty then false
  else
    match rule.logicOperator with
    | LogicOp.OR => evalCondsOR env f rule.conditions
    | LogicOp.AND => evalCondsAND env f rule.conditions

/-- Full (non-short-circuit) OR evaluation: every condition is evaluated,
then the results are folded. -/
def fullEvalOR (env : CondEnv) (f : VFile) (l : List AutoArchiveCondition) : Bool :=
  (l.map (evaluateCondition env f)).foldl (· || ·) false

/-- Full (non-short-circuit) AND evaluation. -/
def fullEvalAND (env : CondEnv) (f : VFile) (l : List AutoArchiveCondition) : Bool :=
  (l.map (evaluateCondition env f)).foldl (· && ·) true

theorem evalCondsOR_eq_any (env : CondEnv) (f : VFile)
    (l : List AutoArchiveCondition) :
    evalCondsOR env f l = l.any (evaluateCondition env f) := by
  induction l with
  | nil => rfl
  | cons c rest ih =>
    by_cases h : evaluateCondition env f c = true
    · simp [evalCondsOR, h]
    · simp only [Bool.not_eq_true] at h
      simp [evalCondsOR, h, ih]

theorem evalCondsAND_eq_all (env : CondEnv) (f : VFile)
    (l : List AutoArchiveCondition) :
    evalCondsAND env f l = l.all (evaluateCondition env f) := by
  induction l with
  | nil => rfl
  | cons c rest ih =>
    by_cases h : evaluateCondition env f c = true
    · simp [evalCondsAND, h, ih]
    · simp only [Bool.not_eq_true] at h
      simp [evalCondsAND, h]

theorem foldl_or_acc {α : Type} (p : α → Bool) (l : List α) :
    ∀ acc : Bool, (l.map p).foldl (· || ·) acc = (acc || l.any p) := by
  induction l with
  | nil => intro acc; simp
  | cons x xs ih =>
    intro acc
    simp only [List.map_cons, List.foldl_cons, List.any_cons, ih, Bool.or_assoc]

theorem foldl_and_acc {α : Type} (p : α → Bool) (l : List α) :
    ∀ acc : Bool, (l.map p).foldl (· && ·) acc = (acc && l.all p) := by
  induction l with
  | nil => intro acc; simp
  | cons x xs ih =>
    intro acc
    simp only [List.map_cons, List.foldl_cons, List.all_cons, ih, Bool.and_assoc]

/-- C3: on a non-archived file and a non-empty condition list, rule
evaluation under `AND` is true iff every condition matches, under `OR` iff
at least one matches, and the short-circuit loops agree with full
(evaluate-everything) evaluation. -/
theorem c3_logic_operators (env : CondEnv) (root : Path) (f : VFile)
    (rule : AutoArchiveRule) (hconds : rule.conditions ≠ [])
    (hna : isFileArchived root f.path = false) :
    (rule.logicOperator = LogicOp.AND →
      (evaluateAutoArchiveRule env root f rule = true ↔
        ∀ c ∈ rule.conditions, evaluateCondition env f c = true)) ∧
    (rule.logicOperator = LogicOp.OR →
      (evaluateAutoArchiveRule env root f rule = true ↔
        ∃ c ∈ rule.conditions, evaluateCondition env f c = true)) ∧
    evalCondsAND env f rule.conditions = fullEvalAND env f rule.conditions ∧
    evalCondsOR env f rule.conditions = fullEvalOR env f rule.conditions := by
  have hne : rule.conditions.isEmpty = false := by
    simpa [List.isEmpty_iff] using hconds
  refine ⟨fun hop => ?_, fun hop => ?_, ?_, ?_⟩
  · simp [evaluateAutoArchiveRule, hna, hne, hop, evalCondsAND_eq_all,
      List.all_eq_true]
  · simp [evaluateAutoArchiveRule, hna, hne, hop, evalCondsOR_eq_any,
      List.any_eq_true]
  · rw [evalCondsAND_eq_all, fullEvalAND, foldl_and_acc, Bool.true_and]
  · rw [evalCondsOR_eq_any, fullEvalOR, foldl_or_acc, Bool.false_or]

/-- A sample non-archived file. -/
def noteFile : VFile := ⟨"note.md".toList, [slash], "note.md".toList⟩

/-- A condition environment whose stat capability knows no file and whose
regex engine rejects every pattern. -/
def envNoStat : CondEnv := ⟨0, fun _ => none, fun _ => none⟩

/-- C3 (witness): a two-condition rule (an invalid pattern and an invalid
pattern) under `AND` on a non-archived file. -/
theorem c3_logic_operators_witness :
    ([⟨CondType.regexPattern, "[".toList⟩] ≠ ([] : List AutoArchiveCondition)) ∧
    isFileArchived "Archive".toList "note.md".toList = false ∧
    ((AutoArchiveRule.mk "r1".toList true "Inbox".toList
          [⟨CondType.regexPattern, "[".toList⟩] LogicOp.AND).logicOperator
        = LogicOp.AND →
      (evaluateAutoArchiveRule envNoStat "Archive".toList noteFile
          (AutoArchiveRule.mk "r1".toList true "Inbox".toList
            [⟨CondType.regexPattern, "[".toList⟩] LogicOp.AND) = true ↔
        ∀ c ∈ (AutoArchiveRule.mk "r1".toList true "Inbox".toList
            [⟨CondType.regexPattern, "[".toList⟩] LogicOp.AND).conditions,
          evaluateCondition envNoStat noteFile c = true)) :=
  ⟨by decide, by decide,
    (c3_logic_operators envNoStat "Archive".toList noteFile
      (AutoArchiveRule.mk "r1".toList true "Inbox".toList
        [⟨CondType.regexPattern, "[".toList⟩] LogicOp.AND)
      (by decide) (by decide)).1⟩

/-- C4: rule evaluation returns false whenever the file is already archived
or the condition list is empty, for every condition environment and every
logic operator. -/
theorem c4_archived_or_empty (env : CondEnv) (root : Path) (f : VFile)
    (rule : AutoArchiveRule)
    (h : isFileArchived root f.path = true ∨ rule.conditions = []) :
    evaluateAutoArchiveRule env root f rule = false := by
  rcases h with h | h
  · simp [evaluateAutoArchiveRule, h]
  · cases hb : isFileArchived root f.path <;>
      simp [evaluateAutoArchiveRule, h, hb]

/-- C4 (witness): an empty-conditions rule under `OR` on a non-archived
file. -/
theorem c4_archived_or_empty_witness :
    (isFileArchived "Archive".toList "note.md".toList = true ∨
      (AutoArchiveRule.mk "r2".toList true "Inbox".toList [] LogicOp.OR).conditions
        = []) ∧
    evaluateAutoArchiveRule envNoStat "Archive".toList noteFile
      (AutoArchiveRule.mk "r2".toList true "Inbox".toList [] LogicOp.OR) = false :=
  ⟨Or.inr rfl,
    c4_archived_or_empty envNoStat "Archive".toList noteFile
      (AutoArchiveRule.mk "r2".toList true "Inbox".toList [] LogicOp.OR)
      (Or.inr rfl)⟩

/-- C5: for a file with a known modification time, a `fileAge` condition
whose value parses to a non-negative integer `k` is true iff the age in
fractional days is at least `k` — equivalently, iff the age in
milliseconds is at least `k * 86400000`; a non-numeric value makes the
condition false. -/
theorem c5_fileAge_condition (env : CondEnv) (f : VFile) (v : List Char) :
    (∀ (k mtime : Int), parseIntJS v = some k → 0 ≤ k →
      env.statMtime f.path = some mtime →
      (evaluateCondition env f ⟨CondType.fileAge, v⟩ = true ↔
        env.now - mtime ≥ k * 86400000)) ∧
    (parseIntJS v = none →
      evaluateCondition env f ⟨CondType.fileAge, v⟩ = false) := by
  constructor
  · intro k mtime hk _hk0 hs
    simp only [evaluateCondition, hk, hs, decide_eq_true_eq]
    have hcast : ((k * 86400000 : Int) : ℚ) = (k : ℚ) * (1000 * 60 * 60 * 24) := by
      push_cast
      ring
    rw [ge_iff_le, le_div_iff₀ (by norm_num), ← hcast, Int.cast_le, ← ge_iff_le]
  · intro h
    simp [evaluateCondition, h]

/-- A condition environment whose clock reads exactly 7 days and whose stat
capability reports modification time 0 for every path. -/
def envSevenDays : CondEnv := ⟨7 * 86400000, fun _ => some 0, fun _ => none⟩

/-- C5 (witness): value `"7"` on a file exactly 7 days old (true, boundary
case), and value `"abc"` (false). -/
theorem c5_fileAge_condition_witness :
    parseIntJS "7".toList = some 7 ∧
    (0 : Int) ≤ 7 ∧
    envSevenDays.statMtime "note.md".toList = some 0 ∧
    (evaluateCondition envSevenDays noteFile ⟨CondType.fileAge, "7".toList⟩ = true ↔
      envSevenDays.now - 0 ≥ 7 * 86400000) ∧
    parseIntJS "abc".toList = none ∧
    evaluateCondition envSevenDays noteFile ⟨CondType.fileAge, "abc".toList⟩ = false :=
  ⟨by decide, by decide, by decide,
    (c5_fileAge_condition envSevenDays noteFile "7".toList).1 7 0
      (by decide) (by decide) (by decide),
    by decide,
    (c5_fileAge_condition envSevenDays noteFile "abc".toList).2 (by decide)⟩

/-- C6: a `regexPattern` condition whose value fails to compile evaluates
to false (the error is caught, never propagated — the evaluator is a total
function); a compiling value evaluates to the compiled test applied to the
file's name. -/
theorem c6_regex_condition (env : CondEnv) (f : VFile) (v : List Char) :
    (env.regexCompile v = none →
      evaluateCondition env f ⟨CondType.regexPattern, v⟩ = false) ∧
    (∀ t, env.regexCompile v = some t →
      evaluateCondition env f ⟨CondType.regexPattern, v⟩ = t f.name) := by
  constructor
  · intro h
    simp [evaluateCondition, h]
  · intro t h
    simp [evaluateCondition, h]

/-- A sample compiled regex: tests whether the name is `"note.md"`. -/
def mdTest : Path → Bool := fun n => n == "note.md".toList

/-- A condition environment whose regex engine rejects the source `"["`
and compiles everything else to `mdTest`. -/
def envRegex : CondEnv :=
  ⟨0, fun _ => none, fun s => if s == "[".toList then none else some mdTest⟩

/-- C6 (witness): the invalid source `"["` yields false; the valid source
`"note"` yields the compiled test applied to the file name. -/
theorem c6_regex_condition_witness :
    envRegex.regexCompile "[".toList = none ∧
    evaluateCondition envRegex noteFile ⟨CondType.regexPattern, "[".toList⟩ = false ∧
    envRegex.regexCompile "note".toList = some mdTest ∧
    evaluateCondition envRegex noteFile ⟨CondType.regexPattern, "note".toList⟩ =
      mdTest noteFile.name :=
  ⟨rfl,
    (c6_regex_condition envRegex noteFile "[".toList).1 rfl,
    rfl,
    (c6_regex_condition envRegex noteFile "note".toList).2 mdTest rfl⟩

/-- C10: a `fileAge` condition with a numeric value evaluates to false when
the stat capability returns null for the file's path. -/
theorem c10_stat_none (env : CondEnv) (f : VFile) (v : List Char) (k : Int)
    (hv : parseIntJS v = some k) (hs : env.statMtime f.path = none) :
    evaluateCondition env f ⟨CondType.fileAge, v⟩ = false := by
  simp [evaluateCondition, hv, hs]

/-- C10 (witness): value `"7"` under the stat-less environment. -/
theorem c10_stat_none_witness :
    parseIntJS "7".toList = some 7 ∧
    envNoStat.statMtime "note.md".toList = none ∧
    evaluateCondition envNoStat noteFile ⟨CondType.fileAge, "7".toList⟩ = false :=
  ⟨by decide, by decide,
    c10_stat_none envNoStat noteFile "7".toList 7 (by decide) (by decide)⟩

/-! ### The auto-archive sweep (claim C9) -/

/-- A child of a vault folder: a file (`TFile`) or a nested subfolder. -/
inductive VChild
  | file (f : VFile)
  | subfolder (name : Path)
deriving DecidableEq

/-- A vault folder, exposing only its direct children. -/
structure VFolder where
  children : List VChild
deriving DecidableEq

/-- The host's folder tree: `vault.getFolderByPath`. -/
structure VaultTree where
  getFolder : Path → Option VFolder

/-- The candidate loop of `processAutoArchiveRules` (src/main.ts lines
405-414): walk the folder's children in order, keep the `TFile` children
satisfying the rule; subfolder children are skipped, never entered. -/
def collectFilesToArchive (env : CondEnv) (root : Path) (rule : AutoArchiveRule) :
    List VChild → List VFile
  | [] => []
  | VChild.file f :: rest =>
    if evaluateAutoArchiveRule env root f rule then
      f :: collectFilesToArchive env root rule rest
    else
      collectFilesToArchive env root rule rest
  | VChild.subfolder _ :: rest => collectFilesToArchive env root rule rest

/-- The direct-child files of a child list (nested subfolders and their
contents excluded). -/
def directChildFiles : List VChild → List VFile
  | [] => []
  | VChild.file f :: rest => f :: directChildFiles rest
  | VChild.subfolder _ :: rest => directChildFiles rest

/-- One rule's contribution to the sweep (src/main.ts lines 396-422): zero
when the folder at `rule.folderPath` is missing (`continue`), otherwise the
number of collected candidate files whose `archiveFile` call succeeds. -/
def processRule (tree : VaultTree) (host : Host) (env : CondEnv)
    (decision : Decision) (root : Path) (rule : AutoArchiveRule) : Nat :=
  match tree.getFolder (normalizePath rule.folderPath) with
  | none => 0
  | some folder =>
    ((collectFilesToArchive env root rule folder.children).filter
      (fun f => (archiveFile host decision root f).1.success)).length

/-- `processAutoArchiveRules` (src/main.ts lines 385-427): the total
archived count accumulated across the enabled rules. -/
def processAutoArchiveRules (tree : VaultTree) (host : Host) (env : CondEnv)
    (decision : Decision) (root : Path) (rules : List AutoArchiveRule) : Nat :=
  (rules.filter (fun r => r.enabled)).foldl
    (fun acc rule => acc + processRule tree host env decision root rule) 0

theorem collectFilesToArchive_eq_filter (env : CondEnv) (root : Path)
    (rule : AutoArchiveRule) (children : List VChild) :
    collectFilesToArchive env root rule children =
      (directChildFiles children).filter
        (fun f => evaluateAutoArchiveRule env root f rule) := by
  induction children with
  | nil => rfl
  | cons c rest ih =>
    cases c with
    | file f =>
      by_cases h : evaluateAutoArchiveRule env root f rule = true
      · simp [collectFilesToArchive, directChildFiles, h, ih]
      · simp only [Bool.not_eq_true] at h
        simp [collectFilesToArchive, directChildFiles, h, ih]
    | subfolder n => simp [collectFilesToArchive, directChildFiles, ih]

/-- C9: for an enabled rule, the candidates are exactly the direct-child
files of the folder at `rule.folderPath` (subfolders and their contents are
never visited), selected by rule evaluation; a rule whose folder is missing
contributes zero and the sweep proceeds to the remaining rules
unchanged. -/
theorem c9_sweep_candidates (tree : VaultTree) (host : Host) (env : CondEnv)
    (decision : Decision) (root : Path) (rule : AutoArchiveRule)
    (rest : List AutoArchiveRule) (hen : rule.enabled = true) :
    (tree.getFolder (normalizePath rule.folderPath) = none →
      processRule tree host env decision root rule = 0 ∧
      processAutoArchiveRules tree host env decision root (rule :: rest) =
        processAutoArchiveRules tree host env decision root rest) ∧
    (∀ folder, tree.getFolder (normalizePath rule.folderPath) = some folder →
      collectFilesToArchive env root rule folder.children =
        (directChildFiles folder.children).filter
          (fun f => evaluateAutoArchiveRule env root f rule)) := by
  constructor
  · intro hnone
    have hpr : processRule tree host env decision root rule = 0 := by
      simp [processRule, hnone]
    refine ⟨hpr, ?_⟩
    simp [processAutoArchiveRules, hen, hpr]
  · intro folder _
    exact collectFilesToArchive_eq_filter env root rule folder.children

/-- A file `"Inbox/old.md"` sitting directly in `"Inbox"`. -/
def oldNote : VFile := ⟨"Inbox/old.md".toList, "Inbox".toList, "old.md".toList⟩

/-- The `"Inbox"` folder: one direct-child file and one subfolder. -/
def inboxFolder : VFolder :=
  ⟨[VChild.file oldNote, VChild.subfolder "Sub".toList]⟩

/-- A vault tree containing exactly the `"Inbox"` folder. -/
def sampleTree : VaultTree :=
  ⟨fun p => if p == "Inbox".toList then some inboxFolder else none⟩

/-- An enabled rule pointing at the missing folder `"Missing"`. -/
def ruleMissing : AutoArchiveRule :=
  ⟨"r-missing".toList, true, "Missing".toList,
    [⟨CondType.fileAge, "7".toList⟩], LogicOp.AND⟩

/-- An enabled 7-day `fileAge` rule over `"Inbox"`. -/
def ruleInbox : AutoArchiveRule :=
  ⟨"r-inbox".toList, true, "Inbox".toList,
    [⟨CondType.fileAge, "7".toList⟩], LogicOp.AND⟩

/-- C9 (witness): the missing-folder rule contributes zero and is skipped;
the `"Inbox"` rule's candidates are the filtered direct-child files. -/
theorem c9_sweep_candidates_witness :
    ruleMissing.enabled = true ∧
    sampleTree.getFolder (normalizePath ruleMissing.folderPath) = none ∧
    (processRule sampleTree hostFull envSevenDays Decision.cancel
        "Archive".toList ruleMissing = 0 ∧
      processAutoArchiveRules sampleTree hostFull envSevenDays Decision.cancel
          "Archive".toList [ruleMissing, ruleInbox] =
        processAutoArchiveRules sampleTree hostFull envSevenDays Decision.cancel
          "Archive".toList [ruleInbox]) ∧
    ruleInbox.enabled = true ∧
    sampleTree.getFolder (normalizePath ruleInbox.folderPath) = some inboxFolder ∧
    collectFilesToArchive envSevenDays "Archive".toList ruleInbox
        inboxFolder.children =
      (directChildFiles inboxFolder.children).filter
        (fun f => evaluateAutoArchiveRule envSevenDays "Archive".toList f ruleInbox) :=
  ⟨by decide, by decide,
    (c9_sweep_candidates sampleTree hostFull envSevenDays Decision.cancel
      "Archive".toList ruleMissing [ruleInbox] (by decide)).1 (by decide),
    by decide, by decide,
    (c9_sweep_candidates sampleTree hostFull envSevenDays Decision.cancel
      "Archive".toList ruleInbox [] (by decide)).2 inboxFolder (by decide)⟩

end SimpleArchiver
